import Mathlib

/-!
Verification development for the convex-hull server repository (OS_EX3).

The C++ sources are shallowly embedded below.  `double` coordinates and
areas are modelled by `ℚ` (exact arithmetic, no floating point); C++
`int` by `Int`; `std::vector` by `List` (the vector's `back` is the head
of the Lean list inside the chain-building loops, and lists are reversed
back to vector order at the end); string parsing is abstracted into its
observable outcome (`Option` of the parsed value), since every consumer
of a raw protocol line only branches on the command keyword and on
whether the numeric payload parses.
-/

/-- `Point` from `q2/convex_hull_vector.cpp` (struct Point { double x, y; }). -/
structure Pt where
  x : ℚ
  y : ℚ
deriving DecidableEq, Repr

/-- `cross_product(O, A, B)` from `q2/convex_hull_vector.cpp` (also
`crossProduct` in every server file, verbatim copies). -/
def cross_product (O A B : Pt) : ℚ :=
  (A.x - O.x) * (B.y - O.y) - (A.y - O.y) * (B.x - O.x)

/-- `compare_points(a, b)` from `q2/convex_hull_vector.cpp`: strict
lexicographic comparison, first by x then by y (also the sort lambda in
the server files). -/
def compare_points (a b : Pt) : Bool :=
  if a.x ≠ b.x then decide (a.x < b.x) else decide (a.y < b.y)

/-- The non-strict order induced by `compare_points`, exactly the
sortedness guarantee of `std::sort` with a strict comparator: consecutive
elements `a, b` of the output satisfy `¬ compare_points b a`. -/
def ptLe (a b : Pt) : Bool := ! compare_points b a

/-- `std::sort(points.begin(), points.end(), compare_points)`.
`std::sort` guarantees exactly: the output is a permutation of the input
that is sorted w.r.t. `ptLe`.  Since `ptLe` is a total antisymmetric
order on `Pt`, that output is unique, so any sorting algorithm models
it; `insertionSort` is used because it reduces in the kernel. -/
def sortPoints (points : List Pt) : List Pt :=
  points.insertionSort fun a b => ptLe a b = true

/-- The chain-building inner `while` loop shared by the lower and upper
chains of `convex_hull`:
`while (hull.size() >= minSize && cross_product(hull[n-2], hull[n-1], p) <= 0) hull.pop_back();`.
The hull stack is head-first (list head = vector back), so `hull[n-1]`
is the head and `hull[n-2]` the second element. -/
def hullPop (minSize : Nat) (p : Pt) : List Pt → List Pt
  | a :: b :: rest =>
    if minSize ≤ (a :: b :: rest).length ∧ cross_product b a p ≤ 0 then
      hullPop minSize p (b :: rest)
    else a :: b :: rest
  | h => h

/-- One iteration of a chain-building `for` loop of `convex_hull`:
discard via `hullPop`, then `hull.push_back(points[i])`. -/
def chainStep (minSize : Nat) (hull : List Pt) (p : Pt) : List Pt :=
  p :: hullPop minSize p hull

/-- `convex_hull(points)` from `q2/convex_hull_vector.cpp` (Andrew's
monotone chain; `computeConvexHull` in the server files is a verbatim
copy).  The lower chain runs over the sorted points with discard
threshold 2; the upper chain continues over `points[n-2] .. points[0]`
with threshold `lower_size + 1`; finally the duplicated closing point is
popped and the stack is reversed back to vector order. -/
def convex_hull (points : List Pt) : List Pt :=
  if points.length ≤ 1 then points
  else
    let pts := sortPoints points
    let lower := pts.foldl (chainStep 2) []
    let hull := (pts.reverse.drop 1).foldl (chainStep (lower.length + 1)) lower
    (if hull.length > 1 then hull.drop 1 else hull).reverse

/-- `calculate_area(hull)` from `q2/convex_hull_vector.cpp`
(`calculatePolygonArea` in the server files): shoelace formula,
`0.0` for fewer than 3 vertices.  The cyclic indexing `j = (i+1) % n`
is realised by zipping the list with its rotation by one. -/
def calculate_area (hull : List Pt) : ℚ :=
  if hull.length < 3 then 0
  else |((hull.zip (hull.rotate 1)).map fun pq => pq.1.x * pq.2.y - pq.2.x * pq.1.y).sum| / 2

/-! ## Threshold monitor (producer/consumer) from `unnamed/part_008` -/

/-- `TARGET_AREA` (`#define TARGET_AREA 100.0`). -/
def TARGET_AREA : ℚ := 100

/-- The producer/consumer shared state of `part_008`:
`double currentArea` and `bool areaAboveTarget`. -/
structure ThresholdState where
  currentArea : ℚ
  areaAboveTarget : Bool
deriving DecidableEq, Repr

/-- Direction of a threshold crossing, as reported by
`consumerThreadFunction`: after being signalled it prints the upward
message when `areaAboveTarget` and the downward message otherwise. -/
inductive Crossing where
  | up
  | down
deriving DecidableEq, Repr

/-- `updateAreaAndNotify(newArea)` from `unnamed/part_008`: stores the
new area, and on a threshold flip updates `areaAboveTarget` and signals
the condition variable.  The returned `Option Crossing` is the signal:
`none` means `pthread_cond_signal` was not called. -/
def updateAreaAndNotify (s : ThresholdState) (newArea : ℚ) : ThresholdState × Option Crossing :=
  let wasAboveTarget := s.areaAboveTarget
  if ¬ wasAboveTarget = true ∧ newArea ≥ TARGET_AREA then
    ({ currentArea := newArea, areaAboveTarget := true }, some Crossing.up)
  else if wasAboveTarget = true ∧ newArea < TARGET_AREA then
    ({ currentArea := newArea, areaAboveTarget := false }, some Crossing.down)
  else
    ({ s with currentArea := newArea }, none)

/-- Runs the producer over a sequence of recomputed areas, collecting
the crossings signalled to the watcher in order. -/
def runProducer (s : ThresholdState) (areas : List ℚ) : ThresholdState × List Crossing :=
  areas.foldl
    (fun acc a =>
      let r := updateAreaAndNotify acc.1 a
      (r.1, acc.2 ++ r.2.toList))
    (s, [])

/-! ## Protocol lines, replies and the shared-graph helpers -/

/-- Outcome of the command-keyword dispatch on one protocol line.
Numeric payloads carry the outcome of `stoi` / `parsePointFromString`
(`none` = the parse threw). -/
inductive Cmd where
  | newgraph (n : Option Int)
  | ch
  | newpoint (p : Option Pt)
  | removepoint (p : Option Pt)
  | exitCmd
  | unknown
deriving DecidableEq, Repr

/-- One trimmed, non-empty protocol line.  `asPoint` is the outcome of
`parsePointFromString` applied to the whole line (used while a session
is reading points); `cmd` is the keyword dispatch outcome used in the
command state. -/
structure Line where
  asPoint : Option Pt
  cmd : Cmd
deriving DecidableEq, Repr

/-- Server replies.  Fixed strings are carried literally; the
parameterised messages get one constructor each; the hull area is sent
via `area` (rendered by the servers with `fixed << setprecision(1)`);
`parseError` is the `"Error: ..."` line produced by a caught
`invalid_argument` from `parsePointFromString`. -/
inductive Reply where
  | lit (s : String)
  | area (a : ℚ)
  | pointAccepted (k : Int)
  | graphCreated (k : Int)
  | enterPoints (n : Int)
  | promptAgain (k : Int)
  | parseError
deriving DecidableEq, Repr

/-- The epsilon tolerance `1e-9` used by every `Removepoint` loop. -/
def EPS : ℚ := 1 / 1000000000

/-- `fabs(a.x - p.x) < 1e-9 && fabs(a.y - p.y) < 1e-9`. -/
def pointNear (a p : Pt) : Bool :=
  decide (|a.x - p.x| < EPS) && decide (|a.y - p.y| < EPS)

/-- The `Removepoint` loop of `unnamed/part_001` / `part_002` /
`part_008`: iterate from `begin()` to `end()`, erase the first point
within epsilon of the target, record whether one was found. -/
def removePointFirst (ps : List Pt) (p : Pt) : List Pt × Bool :=
  match ps with
  | [] => ([], false)
  | q :: rest =>
    if pointNear q p then (rest, true)
    else
      let r := removePointFirst rest p
      (q :: r.1, r.2)

/-- The `Removepoint` loop of `q6/convex_hull_server_reactor.cpp` (both
editions) and `unnamed/part_003`: iterate the index `i` from
`size()-1` down to `0`, erase at the first match and break.  Scanning
backwards erases the *last* matching element, i.e. the first match of
the reversed list. -/
def removePointLast (ps : List Pt) (p : Pt) : List Pt × Bool :=
  let r := removePointFirst ps.reverse p
  (r.1.reverse, r.2)

/-- The `Removepoint` branch of the second (non-debug) edition of
`q6/convex_hull_server_reactor.cpp` (`executeClientCommand`): backward
scan-and-erase with no `found` flag, always replying `"Point removed"`. -/
def q6_removepoint_v2 (graph : List Pt) (p : Pt) : List Pt × Reply :=
  ((removePointLast graph p).1, Reply.lit "Point removed")

/-! ## Thread-per-client servers: `unnamed/part_001` and `unnamed/part_002`

One connection's handler state: the `readingPoints` / `pointsToRead` /
`pointsRead` locals of `handleClient`, together with the shared graph
(`sharedGraphPoints`, accessed under `graphMutex`; a single handler step
is modelled, so the lock discipline collapses to plain access). -/

structure P12State where
  graph : List Pt
  readingPoints : Bool
  pointsToRead : Int
  pointsRead : Int
deriving DecidableEq, Repr

/-- Processing of one complete command line by `handleClient` of
`unnamed/part_001` (thread-per-client server, Q7).  Note that on
`Newgraph` the source assigns `pointsToRead = stoi(...)` *before*
validating it, so a parsed non-positive count is stored even on the
error path; and `part_001` has no `exit`/`quit` branch, so those lines
fall through to `"Error: Unknown command"`. -/
def part1HandleLine (st : P12State) (line : Line) : P12State × List Reply :=
  if st.readingPoints then
    match line.asPoint with
    | none => (st, [Reply.parseError])
    | some p =>
      let graph' := st.graph ++ [p]
      let read' := st.pointsRead + 1
      if read' ≥ st.pointsToRead then
        ({ st with graph := graph', pointsRead := read', readingPoints := false },
         [Reply.pointAccepted read', Reply.graphCreated read'])
      else
        ({ st with graph := graph', pointsRead := read' }, [Reply.pointAccepted read'])
  else
    match line.cmd with
    | Cmd.newgraph none => (st, [Reply.lit "Error: Invalid number of points"])
    | Cmd.newgraph (some n) =>
      if n ≤ 0 then
        ({ st with pointsToRead := n }, [Reply.lit "Error: Invalid number of points"])
      else
        ({ st with graph := [], pointsToRead := n, pointsRead := 0, readingPoints := true },
         [Reply.enterPoints n])
    | Cmd.ch =>
      if st.graph.length < 3 then (st, [Reply.lit "0.0"])
      else (st, [Reply.area (calculate_area (convex_hull st.graph))])
    | Cmd.newpoint none => (st, [Reply.parseError])
    | Cmd.newpoint (some p) => ({ st with graph := st.graph ++ [p] }, [Reply.lit "Point added"])
    | Cmd.removepoint none => (st, [Reply.parseError])
    | Cmd.removepoint (some p) =>
      let r := removePointFirst st.graph p
      ({ st with graph := r.1 },
       [if r.2 then Reply.lit "Point removed" else Reply.lit "Point not found"])
    | Cmd.exitCmd => (st, [Reply.lit "Error: Unknown command"])
    | Cmd.unknown => (st, [Reply.lit "Error: Unknown command"])

/-- Processing of one complete command line by `handleClient` of
`unnamed/part_002` (thread-per-client server, fixed edition): identical
command logic to `part_001` plus the `exit`/`quit` branch replying
`"Goodbye!"` (the connection close itself is not modelled). -/
def part2HandleLine (st : P12State) (line : Line) : P12State × List Reply :=
  if st.readingPoints then
    match line.asPoint with
    | none => (st, [Reply.parseError])
    | some p =>
      let graph' := st.graph ++ [p]
      let read' := st.pointsRead + 1
      if read' ≥ st.pointsToRead then
        ({ st with graph := graph', pointsRead := read', readingPoints := false },
         [Reply.pointAccepted read', Reply.graphCreated read'])
      else
        ({ st with graph := graph', pointsRead := read' }, [Reply.pointAccepted read'])
  else
    match line.cmd with
    | Cmd.newgraph none => (st, [Reply.lit "Error: Invalid number of points"])
    | Cmd.newgraph (some n) =>
      if n ≤ 0 then
        ({ st with pointsToRead := n }, [Reply.lit "Error: Invalid number of points"])
      else
        ({ st with graph := [], pointsToRead := n, pointsRead := 0, readingPoints := true },
         [Reply.enterPoints n])
    | Cmd.ch =>
      if st.graph.length < 3 then (st, [Reply.lit "0.0"])
      else (st, [Reply.area (calculate_area (convex_hull st.graph))])
    | Cmd.newpoint none => (st, [Reply.parseError])
    | Cmd.newpoint (some p) => ({ st with graph := st.graph ++ [p] }, [Reply.lit "Point added"])
    | Cmd.removepoint none => (st, [Reply.parseError])
    | Cmd.removepoint (some p) =>
      let r := removePointFirst st.graph p
      ({ st with graph := r.1 },
       [if r.2 then Reply.lit "Point removed" else Reply.lit "Point not found"])
    | Cmd.exitCmd => (st, [Reply.lit "Goodbye!"])
    | Cmd.unknown => (st, [Reply.lit "Error: Unknown command"])

/-! ## Producer/consumer server: `unnamed/part_008` (Q10, proactor) -/

/-- One connection's handler state in `part_008` together with the
shared graph and the producer/consumer `ThresholdState`. -/
structure P8State where
  graph : List Pt
  readingPoints : Bool
  pointsToRead : Int
  pointsRead : Int
  threshold : ThresholdState
deriving DecidableEq, Repr

/-- Processing of one complete command line by
`handleClientWithProactorAndConsumer` of `unnamed/part_008`.  Returns
the new state, the replies sent to this client, the list of areas
passed to `updateAreaAndNotify` (the producer events), and the
crossings signalled to the consumer thread.  The producer events are,
exactly as in the source: area recomputation on completing a
`Newgraph` point sequence, `updateAreaAndNotify(0.0)` on the `Newgraph`
reset itself, and on every `CH`; `Newpoint`/`Removepoint` have the
explicit source comment "No automatic area calculation here". -/
def part8HandleLine (st : P8State) (line : Line) :
    P8State × List Reply × List ℚ × List Crossing :=
  if st.readingPoints then
    match line.asPoint with
    | none => (st, [Reply.parseError], [], [])
    | some p =>
      let graph' := st.graph ++ [p]
      let read' := st.pointsRead + 1
      if read' ≥ st.pointsToRead then
        let a := if graph'.length ≥ 3 then calculate_area (convex_hull graph') else 0
        let r := updateAreaAndNotify st.threshold a
        ({ st with graph := graph', pointsRead := read', readingPoints := false,
                   threshold := r.1 },
         [Reply.pointAccepted read', Reply.graphCreated read'], [a], r.2.toList)
      else
        ({ st with graph := graph', pointsRead := read' },
         [Reply.pointAccepted read'], [], [])
  else
    match line.cmd with
    | Cmd.newgraph none => (st, [Reply.lit "Error: Invalid number of points"], [], [])
    | Cmd.newgraph (some n) =>
      if n ≤ 0 then
        ({ st with pointsToRead := n }, [Reply.lit "Error: Invalid number of points"], [], [])
      else
        let r := updateAreaAndNotify st.threshold 0
        ({ st with graph := [], pointsToRead := n, pointsRead := 0, readingPoints := true,
                   threshold := r.1 },
         [Reply.enterPoints n], [0], r.2.toList)
    | Cmd.ch =>
      if st.graph.length < 3 then
        let r := updateAreaAndNotify st.threshold 0
        ({ st with threshold := r.1 }, [Reply.lit "0.0"], [0], r.2.toList)
      else
        let a := calculate_area (convex_hull st.graph)
        let r := updateAreaAndNotify st.threshold a
        ({ st with threshold := r.1 }, [Reply.area a], [a], r.2.toList)
    | Cmd.newpoint none => (st, [Reply.parseError], [], [])
    | Cmd.newpoint (some p) =>
      ({ st with graph := st.graph ++ [p] }, [Reply.lit "Point added"], [], [])
    | Cmd.removepoint none => (st, [Reply.parseError], [], [])
    | Cmd.removepoint (some p) =>
      let r := removePointFirst st.graph p
      ({ st with graph := r.1 },
       [if r.2 then Reply.lit "Point removed" else Reply.lit "Point not found"], [], [])
    | Cmd.exitCmd => (st, [Reply.lit "Goodbye!"], [], [])
    | Cmd.unknown => (st, [Reply.lit "Error: Unknown command"], [], [])

/-! ## Single-threaded reactor server: `q6/convex_hull_server_reactor.cpp`
(first, debug edition — the one with `found`-flag removal and the
`lockingClientSocket != clientSocket` queue guard) -/

/-- Global state of the q6 server: the shared graph, the cooperative
lock (`isGraphLocked` / `lockingClientSocket`), the per-client
`std::map<int,int>` tables (absent keys read as 0, like `operator[]`),
and the FIFO `waitingCommands` queue (head = `front()`). -/
structure Q6State where
  sharedGraphPoints : List Pt
  isGraphLocked : Bool
  lockingClientSocket : Int
  clientInputState : Int → Int
  pointsToRead : Int → Int
  pointsAlreadyRead : Int → Int
  waitingCommands : List (Int × Line)

/-- `std::map` point update (`m[k] = v`). -/
def mapSet (f : Int → Int) (k v : Int) : Int → Int :=
  fun i => if i = k then v else f i

/-- The `needsLock` test of `handleClientCommand`:
`command == "CH" || prefix "Newgraph " || prefix "Newpoint " || prefix "Removepoint "`.
(`exit` matches no prefix, like any unknown text.) -/
def q6NeedsLock (c : Cmd) : Bool :=
  match c with
  | Cmd.newgraph _ => true
  | Cmd.ch => true
  | Cmd.newpoint _ => true
  | Cmd.removepoint _ => true
  | Cmd.exitCmd => false
  | Cmd.unknown => false

/-- The body of q6 `executeClientCommand` *without* its trailing
`processWaitingCommands()` calls (those are applied by `q6Exec` /
`q6Drain`).  `Newpoint`/`Removepoint` set the lock and release it
before returning, so their net lock effect is `false`/`-1`; their
argument parse happens before the lock is taken, so a parse failure
(caught by the surrounding `catch`, replying `"Error: ..."`) changes
nothing.  `CH` on fewer than 3 points replies the literal `"0"`. -/
def q6ExecBase (s : Q6State) (sock : Int) (c : Cmd) : Q6State × List (Int × Reply) :=
  match c with
  | Cmd.newgraph none => (s, [(sock, Reply.lit "Error: Invalid number of points")])
  | Cmd.newgraph (some n) =>
    if n ≤ 0 then (s, [(sock, Reply.lit "Error: Invalid number of points")])
    else
      ({ s with isGraphLocked := true, lockingClientSocket := sock, sharedGraphPoints := [],
                clientInputState := mapSet s.clientInputState sock 1,
                pointsToRead := mapSet s.pointsToRead sock n,
                pointsAlreadyRead := mapSet s.pointsAlreadyRead sock 0 },
       [(sock, Reply.enterPoints n)])
  | Cmd.ch =>
    if s.sharedGraphPoints.length < 3 then (s, [(sock, Reply.lit "0")])
    else (s, [(sock, Reply.area (calculate_area (convex_hull s.sharedGraphPoints)))])
  | Cmd.newpoint none => (s, [(sock, Reply.parseError)])
  | Cmd.newpoint (some p) =>
    ({ s with sharedGraphPoints := s.sharedGraphPoints ++ [p],
              isGraphLocked := false, lockingClientSocket := -1 },
     [(sock, Reply.lit "Point added")])
  | Cmd.removepoint none => (s, [(sock, Reply.parseError)])
  | Cmd.removepoint (some p) =>
    let r := removePointLast s.sharedGraphPoints p
    ({ s with sharedGraphPoints := r.1,
              isGraphLocked := false, lockingClientSocket := -1 },
     [(sock, if r.2 then Reply.lit "Point removed" else Reply.lit "Point not found")])
  | Cmd.exitCmd => (s, [(sock, Reply.lit "Error: Unknown command")])
  | Cmd.unknown => (s, [(sock, Reply.lit "Error: Unknown command")])

/-- q6 `processWaitingCommands`:
`while (!waitingCommands.empty() && !isGraphLocked) { pop front; executeClientCommand(...); }`.
The recursive `processWaitingCommands()` call at the end of a drained
`Newpoint`/`Removepoint` drains the very same queue under the very same
stop condition, so loop and recursion flatten into this single
recursion; it stops exactly when the queue is empty or a drained
command has re-taken the lock. -/
def q6Drain (s : Q6State) : Q6State × List (Int × Reply) :=
  if s.isGraphLocked then (s, [])
  else
    match h : s.waitingCommands with
    | [] => (s, [])
    | a :: rest =>
      let r1 := q6ExecBase { s with waitingCommands := rest } a.1 a.2.cmd
      let r2 := q6Drain r1.1
      (r2.1, r1.2 ++ r2.2)
termination_by s.waitingCommands.length
decreasing_by
  have hq : ∀ (s' : Q6State) (k : Int) (c : Cmd),
      (q6ExecBase s' k c).1.waitingCommands = s'.waitingCommands := by
    intro s' k c
    cases c with
    | newgraph n => cases n <;> simp [q6ExecBase] <;> split <;> simp
    | ch => simp [q6ExecBase]; split <;> simp
    | newpoint p => cases p <;> simp [q6ExecBase]
    | removepoint p => cases p <;> simp [q6ExecBase]
    | exitCmd => simp [q6ExecBase]
    | unknown => simp [q6ExecBase]
  simp [hq, h]

/-- q6 `executeClientCommand` including its trailing
`processWaitingCommands()` (present exactly in the successfully parsed
`Newpoint` and `Removepoint` branches, right after the lock release). -/
def q6Exec (s : Q6State) (sock : Int) (c : Cmd) : Q6State × List (Int × Reply) :=
  match c with
  | Cmd.newpoint (some p) =>
    let r1 := q6ExecBase s sock (Cmd.newpoint (some p))
    let r2 := q6Drain r1.1
    (r2.1, r1.2 ++ r2.2)
  | Cmd.removepoint (some p) =>
    let r1 := q6ExecBase s sock (Cmd.removepoint (some p))
    let r2 := q6Drain r1.1
    (r2.1, r1.2 ++ r2.2)
  | c' => q6ExecBase s sock c'

/-- q6 `handleClientCommand` on one trimmed, non-empty line: the
point-entry branch while `clientInputState[sock] == 1` (on completion:
state back to 0, lock released, queue drained; on parse failure: error
plus the "Please enter point k again" prompt and unchanged counters),
then the admission-queue guard
`isGraphLocked && needsLock && lockingClientSocket != clientSocket`
(queued commands get the `"Command queued"` reply), else immediate
execution. -/
def q6Handle (s : Q6State) (sock : Int) (line : Line) : Q6State × List (Int × Reply) :=
  if s.clientInputState sock = 1 then
    match line.asPoint with
    | none =>
      (s, [(sock, Reply.parseError), (sock, Reply.promptAgain (s.pointsAlreadyRead sock + 1))])
    | some p =>
      let read' := s.pointsAlreadyRead sock + 1
      let s1 := { s with sharedGraphPoints := s.sharedGraphPoints ++ [p],
                         pointsAlreadyRead := mapSet s.pointsAlreadyRead sock read' }
      if read' ≥ s.pointsToRead sock then
        let s2 := { s1 with clientInputState := mapSet s1.clientInputState sock 0,
                            isGraphLocked := false, lockingClientSocket := -1 }
        let r := q6Drain s2
        (r.1, [(sock, Reply.pointAccepted read'), (sock, Reply.graphCreated read')] ++ r.2)
      else
        (s1, [(sock, Reply.pointAccepted read')])
  else if s.isGraphLocked = true ∧ q6NeedsLock line.cmd = true ∧ s.lockingClientSocket ≠ sock then
    ({ s with waitingCommands := s.waitingCommands ++ [(sock, line)] },
     [(sock, Reply.lit "Command queued")])
  else
    q6Exec s sock line.cmd

/-! ## Event multiplexer registry: `q5/Reactor.cpp` -/

namespace Reactor

/-- `Reactor::addFd(fd, func)`: reject a negative descriptor or an
empty `std::function` with `-1`; otherwise `fdFuncMap[fd] = func`
(inserting or overwriting) and return `0`.  The registry is modelled as
a partial map from descriptors to handlers (`none` = not registered);
the handler payload type is abstract. -/
def addFd {α : Type} (m : Int → Option α) (fd : Int) (func : Option α) :
    (Int → Option α) × Int :=
  if fd < 0 ∨ func.isNone then (m, -1)
  else ((fun k => if k = fd then func else m k), 0)

/-- `Reactor::removeFd(fd)`: if `fdFuncMap.count(fd) == 0` return `-1`
(registry untouched); otherwise erase the entry and return `0`. -/
def removeFd {α : Type} (m : Int → Option α) (fd : Int) :
    (Int → Option α) × Int :=
  if (m fd).isNone then (m, -1)
  else ((fun k => if k = fd then none else m k), 0)

end Reactor

/-! # Theorems -/

/-- C2: starting from `currentArea = 0`, `aboveThreshold = false`, the
producer step signals the watcher exactly at the steps where
`area >= 100.0` differs from the stored `aboveThreshold` flag, and
`aboveThreshold` is updated only at those steps; the sequence
`[50, 150, 150, 80, 120]` produces exactly the three notifications
up, down, up, with none for the repeated `150`. -/
theorem c2_threshold_edge_trigger :
    (∀ (s : ThresholdState) (a : ℚ),
      ((updateAreaAndNotify s a).2 ≠ none ↔ decide (a ≥ TARGET_AREA) ≠ s.areaAboveTarget)
      ∧ ((updateAreaAndNotify s a).2 = none →
          (updateAreaAndNotify s a).1.areaAboveTarget = s.areaAboveTarget))
    ∧ runProducer ⟨0, false⟩ [50, 150, 150, 80, 120]
        = (⟨120, true⟩, [Crossing.up, Crossing.down, Crossing.up]) := by
  constructor
  · intro s a
    by_cases hge : TARGET_AREA ≤ a
    · cases hb : s.areaAboveTarget
      · simp [updateAreaAndNotify, hb, hge]
      · simp [updateAreaAndNotify, hb, hge, not_lt.mpr hge]
    · cases hb : s.areaAboveTarget
      · simp [updateAreaAndNotify, hb, hge]
      · simp [updateAreaAndNotify, hb, hge, not_le.mp hge]
  · decide

/-- Witness for C2 at a concrete input: from `(0, below)`, area `150`
signals the watcher, and area `50` does not and leaves the flag. -/
theorem c2_threshold_edge_trigger_witness :
    (updateAreaAndNotify ⟨0, false⟩ 150).2 ≠ none
    ∧ (updateAreaAndNotify ⟨0, false⟩ 50).1.areaAboveTarget = false :=
  ⟨(c2_threshold_edge_trigger.1 ⟨0, false⟩ 150).1.mpr (by decide),
   (c2_threshold_edge_trigger.1 ⟨0, false⟩ 50).2 (by decide)⟩

/-- C9: the reactor registry overwrites the handler when a registered
descriptor is re-registered (returning success), reports unregistering
an unknown descriptor as a `-1` no-op leaving the registry unchanged,
and rejects a negative descriptor or an empty handler with `-1` without
changing the registry. -/
theorem c9_reactor_registry :
    ∀ (α : Type) (m : Int → Option α) (fd : Int) (g : α),
      (0 ≤ fd →
        (Reactor.addFd m fd (some g)).2 = 0
        ∧ (Reactor.addFd m fd (some g)).1 fd = some g
        ∧ ∀ k, k ≠ fd → (Reactor.addFd m fd (some g)).1 k = m k)
      ∧ (m fd = none → Reactor.removeFd m fd = (m, -1))
      ∧ (fd < 0 → Reactor.addFd m fd (some g) = (m, -1))
      ∧ Reactor.addFd m fd none = (m, -1) := by
  intro α m fd g
  refine ⟨fun hfd => ?_, fun hnone => ?_, fun hneg => ?_, ?_⟩
  · have h1 : ¬ fd < 0 := not_lt.mpr hfd
    refine ⟨?_, ?_, ?_⟩
    · simp [Reactor.addFd, h1]
    · simp [Reactor.addFd, h1]
    · intro k hk
      simp [Reactor.addFd, h1, hk]
  · simp [Reactor.removeFd, hnone]
  · simp [Reactor.addFd, hneg]
  · simp [Reactor.addFd]

/-- Witness for C9 at a concrete registry: re-registering descriptor 0
overwrites its handler and succeeds, and unregistering the unknown
descriptor 5 is a `-1` no-op. -/
theorem c9_reactor_registry_witness :
    (Reactor.addFd (fun k => if k = 0 then some 1 else none) 0 (some 2)).1 0 = some 2
    ∧ (Reactor.addFd (fun k => if k = 0 then some (1 : Nat) else none) 0 (some 2)).2 = 0
    ∧ Reactor.removeFd (fun _ => (none : Option Nat)) 5 = (fun _ => none, -1) :=
  ⟨((c9_reactor_registry Nat (fun k => if k = 0 then some 1 else none) 0 2).1 (by decide)).2.1,
   ((c9_reactor_registry Nat (fun k => if k = 0 then some 1 else none) 0 2).1 (by decide)).1,
   (c9_reactor_registry Nat (fun _ => none) 5 0).2.1 rfl⟩

/-- C7: an invalid `Newgraph n` (unparsable or `n ≤ 0`) from `Idle`
replies `Error: Invalid number of points`, leaves the session in `Idle`
and the shared collection untouched, in the thread-per-client server
(`part_002`) and in the q6 reactor server (where the whole state is
returned unchanged). -/
theorem c7_newgraph_invalid :
    (∀ (st : P12State) (line : Line),
      st.readingPoints = false →
      (line.cmd = Cmd.newgraph none ∨ ∃ n, line.cmd = Cmd.newgraph (some n) ∧ n ≤ 0) →
      (part2HandleLine st line).2 = [Reply.lit "Error: Invalid number of points"]
      ∧ (part2HandleLine st line).1.readingPoints = false
      ∧ (part2HandleLine st line).1.graph = st.graph
      ∧ (part2HandleLine st line).1.pointsRead = st.pointsRead)
    ∧ (∀ (s : Q6State) (sock : Int) (line : Line),
      s.clientInputState sock ≠ 1 →
      s.isGraphLocked = false →
      (line.cmd = Cmd.newgraph none ∨ ∃ n, line.cmd = Cmd.newgraph (some n) ∧ n ≤ 0) →
      q6Handle s sock line = (s, [(sock, Reply.lit "Error: Invalid number of points")])) := by
  constructor
  · intro st line hidle harg
    rcases harg with hnone | ⟨n, hsome, hn⟩
    · simp [part2HandleLine, hidle, hnone]
    · simp [part2HandleLine, hidle, hsome, if_pos hn]
  · intro s sock line hstate hlock harg
    rcases harg with hnone | ⟨n, hsome, hn⟩
    · simp [q6Handle, hstate, hlock, q6Exec, hnone, q6ExecBase]
    · simp [q6Handle, hstate, hlock, q6Exec, hsome, q6ExecBase, if_pos hn]

/-- Witness for C7: `Newgraph 0` on a one-point graph in `Idle` replies
the error and leaves graph and mode unchanged, in both servers. -/
theorem c7_newgraph_invalid_witness :
    (part2HandleLine ⟨[⟨1, 2⟩], false, 0, 0⟩ ⟨none, Cmd.newgraph (some 0)⟩).2
      = [Reply.lit "Error: Invalid number of points"]
    ∧ (part2HandleLine ⟨[⟨1, 2⟩], false, 0, 0⟩ ⟨none, Cmd.newgraph (some 0)⟩).1.graph = [⟨1, 2⟩]
    ∧ q6Handle ⟨[], false, -1, fun _ => 0, fun _ => 0, fun _ => 0, []⟩ 7 ⟨none, Cmd.newgraph none⟩
        = (⟨[], false, -1, fun _ => 0, fun _ => 0, fun _ => 0, []⟩,
           [(7, Reply.lit "Error: Invalid number of points")]) :=
  ⟨(c7_newgraph_invalid.1 ⟨[⟨1, 2⟩], false, 0, 0⟩ ⟨none, Cmd.newgraph (some 0)⟩ rfl
      (Or.inr ⟨0, rfl, by decide⟩)).1,
   (c7_newgraph_invalid.1 ⟨[⟨1, 2⟩], false, 0, 0⟩ ⟨none, Cmd.newgraph (some 0)⟩ rfl
      (Or.inr ⟨0, rfl, by decide⟩)).2.2.1,
   c7_newgraph_invalid.2 ⟨[], false, -1, fun _ => 0, fun _ => 0, fun _ => 0, []⟩ 7
      ⟨none, Cmd.newgraph none⟩ (by decide) rfl (Or.inl rfl)⟩

/-- C8: while a `part_002` session is in `AwaitingPoints`, a line that
fails to parse as a coordinate pair replies an error line and changes
nothing at all: same mode, same counters, same shared collection. -/
theorem c8_malformed_point_line :
    ∀ (st : P12State) (line : Line),
      st.readingPoints = true → line.asPoint = none →
      part2HandleLine st line = (st, [Reply.parseError]) := by
  intro st line hread hns
  simp [part2HandleLine, hread, hns]

/-- Witness for C8: a malformed line while expecting 3 points (1 read)
replies the parse error and keeps the whole state. -/
theorem c8_malformed_point_line_witness :
    part2HandleLine ⟨[⟨0, 0⟩], true, 3, 1⟩ ⟨none, Cmd.unknown⟩
      = (⟨[⟨0, 0⟩], true, 3, 1⟩, [Reply.parseError]) :=
  c8_malformed_point_line ⟨[⟨0, 0⟩], true, 3, 1⟩ ⟨none, Cmd.unknown⟩ rfl rfl

/-- C5 counterexample: in the q6 reactor server cited by the claim, `CH`
from `Idle` on an empty graph replies the literal `"0"`, not the claimed
`"0.0"`. -/
theorem c5_counterexample :
    (q6Handle ⟨[], false, -1, fun _ => 0, fun _ => 0, fun _ => 0, []⟩ 7 ⟨none, Cmd.ch⟩).2
      = [(7, Reply.lit "0")]
    ∧ Reply.lit "0" ≠ Reply.lit "0.0" := by
  constructor
  · rfl
  · decide

/-- C5 amended: `CH` from `Idle` with fewer than 3 points replies the
single line `0.0` in the thread-per-client server (`part_001`) but the
single line `0` in the q6 reactor server; with 3 or more points both
reply the hull area (rendered to one decimal place), and neither
changes any state. -/
theorem c5_amended :
    (∀ (st : P12State) (line : Line),
      st.readingPoints = false → line.cmd = Cmd.ch →
      (part1HandleLine st line).2 =
        [if st.graph.length < 3 then Reply.lit "0.0"
         else Reply.area (calculate_area (convex_hull st.graph))]
      ∧ (part1HandleLine st line).1 = st)
    ∧ (∀ (s : Q6State) (sock : Int),
      (q6ExecBase s sock Cmd.ch).2 =
        [(sock, if s.sharedGraphPoints.length < 3 then Reply.lit "0"
                else Reply.area (calculate_area (convex_hull s.sharedGraphPoints)))]
      ∧ (q6ExecBase s sock Cmd.ch).1 = s) := by
  constructor
  · intro st line hidle hch
    by_cases h3 : st.graph.length < 3 <;> simp [part1HandleLine, hidle, hch, h3]
  · intro s sock
    by_cases h3 : s.sharedGraphPoints.length < 3 <;> simp [q6ExecBase, h3]

/-- Witness for C5 amended: on a 2-point graph, `part_001` `CH` replies
`"0.0"` while leaving the state intact. -/
theorem c5_amended_witness :
    (part1HandleLine ⟨[⟨0, 0⟩, ⟨1, 0⟩], false, 0, 0⟩ ⟨none, Cmd.ch⟩).2 = [Reply.lit "0.0"]
    ∧ (part1HandleLine ⟨[⟨0, 0⟩, ⟨1, 0⟩], false, 0, 0⟩ ⟨none, Cmd.ch⟩).1
        = ⟨[⟨0, 0⟩, ⟨1, 0⟩], false, 0, 0⟩ :=
  ⟨(c5_amended.1 ⟨[⟨0, 0⟩, ⟨1, 0⟩], false, 0, 0⟩ ⟨none, Cmd.ch⟩ rfl rfl).1,
   (c5_amended.1 ⟨[⟨0, 0⟩, ⟨1, 0⟩], false, 0, 0⟩ ⟨none, Cmd.ch⟩ rfl rfl).2⟩

/-- If no element of `ps` is within epsilon of `p`, the forward removal
loop leaves the list unchanged and reports `found = false`. -/
theorem removePointFirst_none (p : Pt) :
    ∀ (ps : List Pt), (∀ q ∈ ps, pointNear q p = false) →
      removePointFirst ps p = (ps, false) := by
  intro ps
  induction ps with
  | nil => intro _; rfl
  | cons a rest ih =>
    intro h
    have ha := h a (by simp)
    have hrest := ih fun q hq => h q (by simp [hq])
    simp [removePointFirst, ha, hrest]

/-- If some element of `ps` is within epsilon of `p`, the forward
removal loop erases exactly the first such element. -/
theorem removePointFirst_found (p : Pt) :
    ∀ (ps : List Pt), (∃ q ∈ ps, pointNear q p = true) →
      ∃ l1 q l2, ps = l1 ++ q :: l2
        ∧ (∀ r ∈ l1, pointNear r p = false)
        ∧ pointNear q p = true
        ∧ removePointFirst ps p = (l1 ++ l2, true) := by
  intro ps
  induction ps with
  | nil => rintro ⟨q, hq, _⟩; simp at hq
  | cons a rest ih =>
    intro hex
    by_cases ha : pointNear a p = true
    · exact ⟨[], a, rest, by simp, by simp, ha, by simp [removePointFirst, ha]⟩
    · have ha' : pointNear a p = false := by
        cases hpa : pointNear a p
        · rfl
        · exact absurd hpa ha
      have hex' : ∃ q ∈ rest, pointNear q p = true := by
        rcases hex with ⟨q, hq, hnear⟩
        rcases List.mem_cons.mp hq with rfl | hq'
        · exact absurd hnear ha
        · exact ⟨q, hq', hnear⟩
      rcases ih hex' with ⟨l1, q, l2, hsplit, hl1, hq, heq⟩
      exact ⟨a :: l1, q, l2, by simp [hsplit],
        by
          intro r hr
          rcases List.mem_cons.mp hr with rfl | hr'
          · exact ha'
          · exact hl1 r hr',
        hq,
        by simp [removePointFirst, ha', heq]⟩

/-- The backward scan of the q6 / `part_003` removal loop erases
exactly the last element within epsilon of `p` (no later element
matches). -/
theorem removePointLast_found (p : Pt) (g : List Pt)
    (hex : ∃ q ∈ g, pointNear q p = true) :
    ∃ l1 q l2, g = l1 ++ q :: l2
      ∧ pointNear q p = true
      ∧ (∀ r ∈ l2, pointNear r p = false)
      ∧ removePointLast g p = (l1 ++ l2, true) := by
  have hrev : ∃ q ∈ g.reverse, pointNear q p = true := by
    rcases hex with ⟨q, hq, hnear⟩
    exact ⟨q, List.mem_reverse.mpr hq, hnear⟩
  rcases removePointFirst_found p g.reverse hrev with ⟨m1, q, m2, hsplit, hm1, hq, heq⟩
  refine ⟨m2.reverse, q, m1.reverse, ?_, hq, ?_, ?_⟩
  · have := congrArg List.reverse hsplit
    simpa [List.reverse_append] using this
  · intro r hr
    exact hm1 r (List.mem_reverse.mp hr)
  · simp [removePointLast, heq, List.reverse_append]

/-- If no element matches, the backward scan also leaves the list
unchanged and reports `found = false`. -/
theorem removePointLast_none (p : Pt) (g : List Pt)
    (h : ∀ q ∈ g, pointNear q p = false) :
    removePointLast g p = (g, false) := by
  have := removePointFirst_none p g.reverse fun q hq => h q (List.mem_reverse.mp hq)
  simp [removePointLast, this]

/-- C4 counterexample: at the cited q6 `executeClientCommand` lines,
`Removepoint 9,9` on an empty graph replies `"Point removed"` (the
claim demands `"Point not found"`); moreover the q6 scan removes the
*last* matching point, not the first: on
`[(0,0), (2⁻³¹, 0)]` (both within `1e-9` of `(0,0)`) it removes the
second element, whereas the thread-per-client loop removes the first. -/
theorem c4_counterexample :
    q6_removepoint_v2 [] ⟨9, 9⟩ = ([], Reply.lit "Point removed")
    ∧ Reply.lit "Point removed" ≠ Reply.lit "Point not found"
    ∧ removePointLast [⟨0, 0⟩, ⟨1/2^31, 0⟩] ⟨0, 0⟩ = ([⟨0, 0⟩], true)
    ∧ removePointFirst [⟨0, 0⟩, ⟨1/2^31, 0⟩] ⟨0, 0⟩ = ([⟨1/2^31, 0⟩], true) := by
  refine ⟨rfl, by decide, ?_, ?_⟩
  · norm_num [removePointLast, removePointFirst, pointNear, EPS, abs_lt]
  · norm_num [removePointFirst, pointNear, EPS, abs_lt]

/-- C4 amended: in the thread-per-client server (`part_001`),
`Removepoint x,y` from `Idle` removes the first point of the collection
within epsilon of the parsed point — at most one — and replies
`Point removed` exactly when a match existed and `Point not found`
otherwise (so `Removepoint 9,9` on an empty graph replies
`Point not found` and leaves the collection empty); in the q6 reactor
server the backward scan removes the *last* matching point instead, and
its non-debug edition replies `Point removed` unconditionally. -/
theorem c4_amended :
    (∀ (st : P12State) (line : Line) (p : Pt),
      st.readingPoints = false → line.cmd = Cmd.removepoint (some p) →
      ((∀ q ∈ st.graph, pointNear q p = false) →
          part1HandleLine st line = (st, [Reply.lit "Point not found"]))
      ∧ ((∃ q ∈ st.graph, pointNear q p = true) →
          ∃ l1 q l2, st.graph = l1 ++ q :: l2
            ∧ (∀ r ∈ l1, pointNear r p = false)
            ∧ pointNear q p = true
            ∧ (part1HandleLine st line).1.graph = l1 ++ l2
            ∧ (part1HandleLine st line).2 = [Reply.lit "Point removed"]))
    ∧ (∀ (g : List Pt) (p : Pt), (q6_removepoint_v2 g p).2 = Reply.lit "Point removed")
    ∧ (∀ (g : List Pt) (p : Pt), (∃ q ∈ g, pointNear q p = true) →
        ∃ l1 q l2, g = l1 ++ q :: l2
          ∧ pointNear q p = true
          ∧ (∀ r ∈ l2, pointNear r p = false)
          ∧ removePointLast g p = (l1 ++ l2, true))
    ∧ (∀ (g : List Pt) (p : Pt), (∀ q ∈ g, pointNear q p = false) →
        removePointLast g p = (g, false)) := by
  refine ⟨?_, fun g p => rfl, fun g p => removePointLast_found p g,
    fun g p => removePointLast_none p g⟩
  intro st line p hidle hcmd
  obtain ⟨g, rp, tr, rd⟩ := st
  simp only at hidle
  subst hidle
  constructor
  · intro hnone
    have h := removePointFirst_none p g hnone
    simp [part1HandleLine, hcmd, h]
  · intro hex
    rcases removePointFirst_found p g hex with ⟨l1, q, l2, hsplit, hl1, hq, heq⟩
    exact ⟨l1, q, l2, hsplit, hl1, hq,
      by simp [part1HandleLine, hcmd, heq],
      by simp [part1HandleLine, hcmd, heq]⟩

/-- Witness for C4 amended: `Removepoint 9,9` on an empty graph in
`part_001` replies `Point not found` and leaves the state unchanged. -/
theorem c4_amended_witness :
    part1HandleLine ⟨[], false, 0, 0⟩ ⟨none, Cmd.removepoint (some ⟨9, 9⟩)⟩
      = (⟨[], false, 0, 0⟩, [Reply.lit "Point not found"]) :=
  (c4_amended.1 ⟨[], false, 0, 0⟩ ⟨none, Cmd.removepoint (some ⟨9, 9⟩)⟩ ⟨9, 9⟩ rfl rfl).1
    (by simp)

/-- C3 counterexample: in `part_008`, a valid `Newgraph 2` from `Idle`
already forwards a recomputation event (`updateAreaAndNotify(0.0)`) on
the reset itself, *before* any point entry: starting with
`ThresholdState = (150, above)` the reset records event area `0`,
wakes the watcher with a downward crossing, and rewrites the stored
`ThresholdState` — all of which the claim says never happens there. -/
theorem c3_counterexample :
    (part8HandleLine ⟨[], false, 0, 0, ⟨150, true⟩⟩ ⟨none, Cmd.newgraph (some 2)⟩).2.2.1 = [0]
    ∧ (part8HandleLine ⟨[], false, 0, 0, ⟨150, true⟩⟩ ⟨none, Cmd.newgraph (some 2)⟩).2.2.2
        = [Crossing.down]
    ∧ (part8HandleLine ⟨[], false, 0, 0, ⟨150, true⟩⟩ ⟨none, Cmd.newgraph (some 2)⟩).1.threshold
        = ⟨0, false⟩
    ∧ (⟨0, false⟩ : ThresholdState) ≠ ⟨150, true⟩ := by
  refine ⟨rfl, rfl, rfl, by decide⟩

/-- C3 amended: in `part_008` a recomputation event (a call into
`updateAreaAndNotify`) is forwarded on an explicit `CH`, on completion
of a `Newgraph` point-entry sequence, *and* on the initial `Newgraph`
reset before point entry (with area `0.0`); `Newpoint` and
`Removepoint` (parsed or malformed) never update `ThresholdState` or
wake the watcher. -/
theorem c3_amended :
    ∀ (st : P8State) (line : Line),
      (∀ p, st.readingPoints = false →
        (line.cmd = Cmd.newpoint p ∨ line.cmd = Cmd.removepoint p) →
        (part8HandleLine st line).2.2.1 = []
        ∧ (part8HandleLine st line).1.threshold = st.threshold
        ∧ (part8HandleLine st line).2.2.2 = [])
      ∧ ((part8HandleLine st line).2.2.1 ≠ [] →
          (st.readingPoints = false
            ∧ (line.cmd = Cmd.ch ∨ ∃ n, line.cmd = Cmd.newgraph (some n) ∧ 0 < n))
          ∨ (st.readingPoints = true ∧ line.asPoint ≠ none
              ∧ st.pointsToRead ≤ st.pointsRead + 1))
      ∧ (st.readingPoints = false → line.cmd = Cmd.ch →
          (part8HandleLine st line).2.2.1 ≠ [])
      ∧ (∀ n, st.readingPoints = false → line.cmd = Cmd.newgraph (some n) → 0 < n →
          (part8HandleLine st line).2.2.1 = [0]) := by
  intro st line
  refine ⟨?_, ?_, ?_, ?_⟩
  · rintro p hidle (hcmd | hcmd) <;> cases p <;> simp [part8HandleLine, hidle, hcmd]
  · intro hne
    cases hread : st.readingPoints
    · left
      refine ⟨rfl, ?_⟩
      cases hcmd : line.cmd with
      | newgraph n =>
        cases n with
        | none => simp [part8HandleLine, hread, hcmd] at hne
        | some m =>
          by_cases hm : m ≤ 0
          · simp [part8HandleLine, hread, hcmd, if_pos hm] at hne
          · exact Or.inr ⟨m, rfl, by omega⟩
      | ch => exact Or.inl rfl
      | newpoint p => cases p <;> simp [part8HandleLine, hread, hcmd] at hne
      | removepoint p => cases p <;> simp [part8HandleLine, hread, hcmd] at hne
      | exitCmd => simp [part8HandleLine, hread, hcmd] at hne
      | unknown => simp [part8HandleLine, hread, hcmd] at hne
    · right
      refine ⟨rfl, ?_, ?_⟩
      · intro hnone
        simp [part8HandleLine, hread, hnone] at hne
      · cases hp : line.asPoint with
        | none => simp [part8HandleLine, hread, hp] at hne
        | some q =>
          by_cases hfull : st.pointsRead + 1 ≥ st.pointsToRead
          · omega
          · simp [part8HandleLine, hread, hp, if_neg hfull] at hne
  · intro hidle hch
    by_cases h3 : st.graph.length < 3 <;>
      simp [part8HandleLine, hidle, hch, h3]
  · intro n hidle hng hn
    simp [part8HandleLine, hidle, hng, if_neg (by omega : ¬ n ≤ 0)]

/-- Witness for C3 amended: from `Idle` with threshold state `(0, below)`,
`Removepoint 1,1` forwards no event and leaves `ThresholdState` alone,
while `CH` does forward an event. -/
theorem c3_amended_witness :
    (part8HandleLine ⟨[], false, 0, 0, ⟨0, false⟩⟩ ⟨none, Cmd.removepoint (some ⟨1, 1⟩)⟩).2.2.1 = []
    ∧ (part8HandleLine ⟨[], false, 0, 0, ⟨0, false⟩⟩ ⟨none, Cmd.removepoint (some ⟨1, 1⟩)⟩).1.threshold
        = ⟨0, false⟩
    ∧ (part8HandleLine ⟨[], false, 0, 0, ⟨0, false⟩⟩ ⟨none, Cmd.ch⟩).2.2.1 ≠ [] :=
  ⟨((c3_amended ⟨[], false, 0, 0, ⟨0, false⟩⟩ ⟨none, Cmd.removepoint (some ⟨1, 1⟩)⟩).1
      (some ⟨1, 1⟩) rfl (Or.inr rfl)).1,
   ((c3_amended ⟨[], false, 0, 0, ⟨0, false⟩⟩ ⟨none, Cmd.removepoint (some ⟨1, 1⟩)⟩).1
      (some ⟨1, 1⟩) rfl (Or.inr rfl)).2.1,
   (c3_amended ⟨[], false, 0, 0, ⟨0, false⟩⟩ ⟨none, Cmd.ch⟩).2.2.1 rfl rfl⟩

/-! ### Order facts about the sort comparator (for C10) -/

/-- `ptLe` spelt out: the non-strict lexicographic order on points. -/
theorem ptLe_iff (a b : Pt) :
    ptLe a b = true ↔ a.x < b.x ∨ (a.x = b.x ∧ a.y ≤ b.y) := by
  unfold ptLe compare_points
  by_cases hx : b.x = a.x
  · simp [hx, not_lt]
  · have hx' : ¬ a.x = b.x := fun h => hx h.symm
    simp [hx, hx', not_lt]
    constructor
    · intro h
      exact lt_of_le_of_ne h hx'
    · exact le_of_lt

theorem ptLe_refl (a : Pt) : ptLe a a = true := by simp [ptLe_iff]

theorem ptLe_trans {a b c : Pt} (h1 : ptLe a b = true) (h2 : ptLe b c = true) :
    ptLe a c = true := by
  rw [ptLe_iff] at h1 h2 ⊢
  rcases h1 with h1 | ⟨h1x, h1y⟩ <;> rcases h2 with h2 | ⟨h2x, h2y⟩
  · exact Or.inl (lt_trans h1 h2)
  · exact Or.inl (h2x ▸ h1)
  · exact Or.inl (h1x ▸ h2)
  · exact Or.inr ⟨h1x.trans h2x, le_trans h1y h2y⟩

theorem ptLe_total (a b : Pt) : ptLe a b = true ∨ ptLe b a = true := by
  rw [ptLe_iff, ptLe_iff]
  rcases lt_trichotomy a.x b.x with h | h | h
  · exact Or.inl (Or.inl h)
  · rcases le_total a.y b.y with hy | hy
    · exact Or.inl (Or.inr ⟨h, hy⟩)
    · exact Or.inr (Or.inr ⟨h.symm, hy⟩)
  · exact Or.inr (Or.inl h)

theorem ptLe_antisymm {a b : Pt} (h1 : ptLe a b = true) (h2 : ptLe b a = true) : a = b := by
  rw [ptLe_iff] at h1 h2
  rcases h1 with h1 | ⟨h1x, h1y⟩ <;> rcases h2 with h2 | ⟨h2x, h2y⟩
  · exact absurd h2 (lt_asymm h1)
  · exact absurd (h2x ▸ h1) (lt_irrefl _)
  · exact absurd (h1x ▸ h2) (lt_irrefl _)
  · rcases a with ⟨ax, ay⟩
    rcases b with ⟨bx, b2⟩
    simp only at h1x h1y h2y
    subst h1x
    exact congrArg (Pt.mk ax) (le_antisymm h1y h2y)

theorem ptLe_x_le {u v : Pt} (h : ptLe u v = true) : u.x ≤ v.x := by
  rcases (ptLe_iff u v).mp h with h | ⟨h, _⟩
  · exact le_of_lt h
  · exact le_of_eq h

theorem sortPoints_perm (l : List Pt) : (sortPoints l).Perm l :=
  List.perm_insertionSort _ l

theorem sortPoints_sorted (l : List Pt) :
    List.Sorted (fun a b => ptLe a b = true) (sortPoints l) := by
  letI : IsTotal Pt (fun a b => ptLe a b = true) := ⟨ptLe_total⟩
  letI : IsTrans Pt (fun a b => ptLe a b = true) := ⟨fun _ _ _ h1 h2 => ptLe_trans h1 h2⟩
  exact List.sorted_insertionSort _ l

theorem sorted_head_le {m : Pt} {t : List Pt}
    (hl : List.Sorted (fun a b => ptLe a b = true) (m :: t)) :
    ∀ r ∈ m :: t, ptLe m r = true := by
  intro r hr
  rcases List.mem_cons.mp hr with rfl | hr'
  · exact ptLe_refl r
  · exact List.rel_of_sorted_cons hl r hr'

theorem sorted_le_getLastD :
    ∀ (t : List Pt) (a : Pt), List.Sorted (fun x y => ptLe x y = true) (a :: t) →
      ∀ r ∈ a :: t, ptLe r (t.getLastD a) = true := by
  intro t
  induction t with
  | nil =>
    intro a _ r hr
    rcases List.mem_cons.mp hr with rfl | h
    · exact ptLe_refl r
    · simp at h
  | cons b t ih =>
    intro a hsort r hr
    have hrel := List.rel_of_sorted_cons hsort
    simp only [List.getLastD_cons]
    rcases List.mem_cons.mp hr with rfl | hr'
    · exact hrel _ (List.getLastD_mem_cons t b)
    · exact ih b hsort.of_cons r hr'

/-- Three points on a common line `a·x + b·y = c` (with `(a,b) ≠ (0,0)`)
have vanishing cross product. -/
theorem cross_eq_zero_of_line (a b c : ℚ) (O A B : Pt)
    (hab : a ≠ 0 ∨ b ≠ 0)
    (hO : a * O.x + b * O.y = c) (hA : a * A.x + b * A.y = c)
    (hB : a * B.x + b * B.y = c) :
    cross_product O A B = 0 := by
  have h1 : a * cross_product O A B = 0 := by
    unfold cross_product
    linear_combination (B.y - O.y) * hA - (B.y - O.y) * hO - (A.y - O.y) * hB + (A.y - O.y) * hO
  have h2 : b * cross_product O A B = 0 := by
    unfold cross_product
    linear_combination (A.x - O.x) * hB - (A.x - O.x) * hO - (B.x - O.x) * hA + (B.x - O.x) * hO
  rcases hab with ha | hb
  · exact (mul_eq_zero.mp h1).resolve_left ha
  · exact (mul_eq_zero.mp h2).resolve_left hb

/-- Lower-chain invariant on collinear points: every new point discards
the stack down to the first point and is pushed, so the stack stays
`[current last, first]`. -/
theorem chain2_collinear (P : Pt → Prop)
    (hP : ∀ O A B, P O → P A → P B → cross_product O A B = 0) :
    ∀ (xs : List Pt) (a m : Pt), P a → P m → (∀ q ∈ xs, P q) →
      xs.foldl (chainStep 2) [a, m] = [xs.getLastD a, m] := by
  intro xs
  induction xs with
  | nil => intro a m _ _ _; rfl
  | cons q xs ih =>
    intro a m ha hm hq
    have hcross : cross_product m a q = 0 := hP m a q hm ha (hq q (by simp))
    have hstep : chainStep 2 [a, m] q = [q, m] := by
      simp [chainStep, hullPop, hcross]
    rw [List.foldl_cons, hstep,
      ih q m (hq q (by simp)) hm (fun r hr => hq r (by simp [hr]))]
    cases xs <;> rfl

/-- Upper-chain invariant on collinear points with discard threshold 3:
the stack stays `[current last, global last, first]`. -/
theorem chain3_collinear (P : Pt → Prop)
    (hP : ∀ O A B, P O → P A → P B → cross_product O A B = 0) :
    ∀ (xs : List Pt) (x M m : Pt), P x → P M → P m → (∀ q ∈ xs, P q) →
      xs.foldl (chainStep 3) [x, M, m] = [xs.getLastD x, M, m] := by
  intro xs
  induction xs with
  | nil => intro x M m _ _ _ _; rfl
  | cons q xs ih =>
    intro x M m hx hM hm hq
    have hcross : cross_product M x q = 0 := hP M x q hM hx (hq q (by simp))
    have hstep : chainStep 3 [x, M, m] q = [q, M, m] := by
      simp [chainStep, hullPop, hcross]
    rw [List.foldl_cons, hstep,
      ih q M m (hq q (by simp)) hM hm (fun r hr => hq r (by simp [hr]))]
    cases xs <;> rfl

/-- Starting the upper chain from the two-element lower chain. -/
theorem chain3_start (P : Pt → Prop)
    (hP : ∀ O A B, P O → P A → P B → cross_product O A B = 0)
    (xs : List Pt) (M m : Pt) (hM : P M) (hm : P m)
    (hq : ∀ q ∈ xs, P q) (hne : xs ≠ []) :
    xs.foldl (chainStep 3) [M, m] = [xs.getLastD M, M, m] := by
  cases xs with
  | nil => exact absurd rfl hne
  | cons y ys =>
    have hstep : chainStep 3 [M, m] y = [y, M, m] := by
      simp [chainStep, hullPop]
    rw [List.foldl_cons, hstep,
      chain3_collinear P hP ys y M m (hq y (by simp)) hM hm (fun r hr => hq r (by simp [hr]))]
    cases ys <;> rfl

/-- The monotone chain on a collinear point list of length ≥ 2 returns
exactly `[first, last]` of the sorted order. -/
theorem convex_hull_collinear_shape (ps : List Pt) (P : Pt → Prop)
    (hP : ∀ O A B, P O → P A → P B → cross_product O A B = 0)
    (hmem : ∀ q ∈ sortPoints ps, P q)
    (m q' : Pt) (t' : List Pt) (hsp : sortPoints ps = m :: q' :: t') :
    convex_hull ps = [m, t'.getLastD q'] := by
  have hlenps : ¬ ps.length ≤ 1 := by
    have hl := (sortPoints_perm ps).length_eq
    rw [hsp] at hl
    simp at hl
    omega
  have hm : P m := hmem m (by rw [hsp]; simp)
  have hq' : P q' := hmem q' (by rw [hsp]; simp)
  have ht' : ∀ q ∈ t', P q := fun q hq => hmem q (by rw [hsp]; simp [hq])
  have hL : P (t'.getLastD q') := by
    rcases List.mem_cons.mp (List.getLastD_mem_cons t' q') with h | h
    · rw [h]; exact hq'
    · exact ht' _ h
  have hlow : (m :: q' :: t').foldl (chainStep 2) [] = [t'.getLastD q', m] := by
    rw [List.foldl_cons, List.foldl_cons]
    have h1 : chainStep 2 [] m = [m] := rfl
    have h2 : chainStep 2 [m] q' = [q', m] := rfl
    rw [h1, h2, chain2_collinear P hP t' q' m hq' hm ht']
  have hys : (m :: q' :: t').reverse.drop 1 = ((q' :: t').reverse.drop 1) ++ [m] := by
    rw [List.reverse_cons, List.drop_append_of_le_length (by simp)]
  have hysne : ((q' :: t').reverse.drop 1) ++ [m] ≠ [] := by simp
  have hysmem : ∀ r ∈ ((q' :: t').reverse.drop 1) ++ [m], P r := by
    intro r hr
    rcases List.mem_append.mp hr with h | h
    · have := List.mem_reverse.mp (List.mem_of_mem_drop h)
      rcases List.mem_cons.mp this with rfl | h'
      · exact hq'
      · exact ht' _ h'
    · simp at h
      rw [h]
      exact hm
  have hupper :
      (((q' :: t').reverse.drop 1) ++ [m]).foldl (chainStep 3) [t'.getLastD q', m]
        = [m, t'.getLastD q', m] := by
    rw [chain3_start P hP _ _ _ hL hm hysmem hysne]
    simp [List.getLastD_concat]
  unfold convex_hull
  rw [if_neg hlenps]
  simp only [hsp, hlow, hys]
  rw [List.length_cons, List.length_cons, List.length_nil]
  rw [hupper]
  rfl

/-- A point lexicographically between the two extremes of a common line
lies on the segment between them. -/
theorem collinear_between (a b c : ℚ) (hab : a ≠ 0 ∨ b ≠ 0) (m M p : Pt)
    (hm : a * m.x + b * m.y = c) (hM : a * M.x + b * M.y = c)
    (hp : a * p.x + b * p.y = c)
    (h1 : ptLe m p = true) (h2 : ptLe p M = true) (hne : m ≠ M) :
    ∃ t : ℚ, 0 ≤ t ∧ t ≤ 1
      ∧ p.x = m.x + t * (M.x - m.x) ∧ p.y = m.y + t * (M.y - m.y) := by
  have hmp : m.x ≤ p.x := ptLe_x_le h1
  have hpM : p.x ≤ M.x := ptLe_x_le h2
  by_cases hxx : m.x = M.x
  · have hpx : p.x = m.x := le_antisymm (hxx ▸ hpM) hmp
    have hmy : m.y ≤ p.y := by
      rcases (ptLe_iff m p).mp h1 with h | ⟨_, h⟩
      · rw [hpx] at h
        exact absurd h (lt_irrefl _)
      · exact h
    have hpy : p.y ≤ M.y := by
      rcases (ptLe_iff p M).mp h2 with h | ⟨_, h⟩
      · rw [hpx, hxx] at h
        exact absurd h (lt_irrefl _)
      · exact h
    have hyy : m.y < M.y := by
      rcases lt_or_eq_of_le (le_trans hmy hpy) with h | h
      · exact h
      · exfalso
        apply hne
        rcases m with ⟨mx, my⟩
        rcases M with ⟨Mx, My⟩
        simp only at hxx h
        rw [hxx, h]
    refine ⟨(p.y - m.y) / (M.y - m.y), div_nonneg (by linarith) (by linarith), ?_, ?_, ?_⟩
    · rw [div_le_one (by linarith)]
      linarith
    · rw [hpx, ← hxx]
      ring
    · rw [div_mul_cancel₀ _ (by intro h0; apply absurd (by linarith : (0:ℚ) < M.y - m.y) (by rw [h0]; exact lt_irrefl 0))]
      ring
  · have hb : b ≠ 0 := by
      intro hb0
      rcases hab with ha | hbne
      · apply hxx
        have em : a * m.x = c := by
          rw [hb0] at hm
          linarith
        have eM : a * M.x = c := by
          rw [hb0] at hM
          linarith
        exact mul_left_cancel₀ ha (em.trans eM.symm)
      · exact hbne hb0
    have hxlt : m.x < M.x := lt_of_le_of_ne (le_trans hmp hpM) hxx
    have hdx : M.x - m.x ≠ 0 := by
      intro h0
      apply absurd (by linarith : (0:ℚ) < M.x - m.x) (by rw [h0]; exact lt_irrefl 0)
    have key : (M.x - m.x) * (p.y - m.y) = (p.x - m.x) * (M.y - m.y) := by
      apply mul_left_cancel₀ hb
      linear_combination (M.x - m.x) * hp - (M.x - m.x) * hm - (p.x - m.x) * hM + (p.x - m.x) * hm
    refine ⟨(p.x - m.x) / (M.x - m.x), div_nonneg (by linarith) (by linarith), ?_, ?_, ?_⟩
    · rw [div_le_one (by linarith)]
      linarith
    · rw [div_mul_cancel₀ _ hdx]
      ring
    · have hdiv : (p.x - m.x) / (M.x - m.x) * (M.y - m.y) = p.y - m.y := by
        rw [div_mul_eq_mul_div, ← key, mul_comm (M.x - m.x) (p.y - m.y),
          mul_div_assoc, div_self hdx, mul_one]
      rw [hdiv]
      ring

/-- C10: on an input of two or more collinear points containing at
least two distinct ones, the monotone-chain hull is exactly the two
extreme points of the common segment — the lexicographic minimum and
maximum, between which every input point lies — and the shoelace
function on that 2-point result returns 0. -/
theorem c10_collinear_hull (ps : List Pt)
    (hlen : 2 ≤ ps.length)
    (hline : ∃ a b c : ℚ, (a ≠ 0 ∨ b ≠ 0) ∧ ∀ q ∈ ps, a * q.x + b * q.y = c)
    (hdist : ∃ u ∈ ps, ∃ v ∈ ps, u ≠ v) :
    ∃ m M, convex_hull ps = [m, M]
      ∧ m ∈ ps ∧ M ∈ ps ∧ m ≠ M
      ∧ (∀ q ∈ ps, ptLe m q = true ∧ ptLe q M = true)
      ∧ (∀ q ∈ ps, ∃ t : ℚ, 0 ≤ t ∧ t ≤ 1
            ∧ q.x = m.x + t * (M.x - m.x) ∧ q.y = m.y + t * (M.y - m.y))
      ∧ calculate_area (convex_hull ps) = 0 := by
  obtain ⟨a, b, c, hab, hl⟩ := hline
  have hperm := sortPoints_perm ps
  have hsort := sortPoints_sorted ps
  have hmemS : ∀ q ∈ sortPoints ps, q ∈ ps := fun q hq => hperm.mem_iff.mp hq
  have hmemP : ∀ q ∈ ps, q ∈ sortPoints ps := fun q hq => hperm.mem_iff.mpr hq
  have hlen2 : 2 ≤ (sortPoints ps).length := by rw [hperm.length_eq]; exact hlen
  rcases hsp : sortPoints ps with _ | ⟨m, _ | ⟨q', t'⟩⟩
  · rw [hsp] at hlen2
    simp at hlen2
  · rw [hsp] at hlen2
    simp at hlen2
  have hPcross : ∀ O A B, O ∈ ps → A ∈ ps → B ∈ ps → cross_product O A B = 0 :=
    fun O A B hO hA hB => cross_eq_zero_of_line a b c O A B hab (hl O hO) (hl A hA) (hl B hB)
  have hshape := convex_hull_collinear_shape ps (· ∈ ps) hPcross hmemS m q' t' hsp
  have hsort' : List.Sorted (fun x y => ptLe x y = true) (m :: q' :: t') := hsp ▸ hsort
  have hmL : m ∈ ps := hmemS m (by rw [hsp]; simp)
  have hLmem : t'.getLastD q' ∈ ps :=
    hmemS _ (by rw [hsp]; exact List.mem_cons_of_mem m (List.getLastD_mem_cons t' q'))
  have hext : ∀ r ∈ ps, ptLe m r = true ∧ ptLe r (t'.getLastD q') = true := by
    intro r hr
    have hrs : r ∈ m :: q' :: t' := by
      rw [← hsp]
      exact hmemP r hr
    refine ⟨sorted_head_le hsort' r hrs, ?_⟩
    rcases List.mem_cons.mp hrs with rfl | hr'
    · exact sorted_head_le hsort' _ (List.mem_cons_of_mem _ (List.getLastD_mem_cons t' q'))
    · exact sorted_le_getLastD t' q' hsort'.of_cons r hr'
  have hneq : m ≠ t'.getLastD q' := by
    intro heq
    obtain ⟨u, hu, v, hv, huv⟩ := hdist
    have hallm : ∀ r ∈ ps, r = m := by
      intro r hr
      have h1 := (hext r hr).1
      have h2 := (hext r hr).2
      rw [← heq] at h2
      exact (ptLe_antisymm h1 h2).symm
    exact huv ((hallm u hu).trans (hallm v hv).symm)
  refine ⟨m, t'.getLastD q', hshape, hmL, hLmem, hneq, hext, ?_, ?_⟩
  · intro r hr
    exact collinear_between a b c hab m _ r (hl m hmL) (hl _ hLmem) (hl r hr)
      (hext r hr).1 (hext r hr).2 hneq
  · rw [hshape]
    rfl

/-- Witness for C10 on the collinear input `[(0,0), (2,2), (1,1)]`
(line `x − y = 0`). -/
theorem c10_collinear_hull_witness :
    ∃ m M, convex_hull [⟨0, 0⟩, ⟨2, 2⟩, ⟨1, 1⟩] = [m, M]
      ∧ m ∈ [(⟨0, 0⟩ : Pt), ⟨2, 2⟩, ⟨1, 1⟩] ∧ M ∈ [(⟨0, 0⟩ : Pt), ⟨2, 2⟩, ⟨1, 1⟩] ∧ m ≠ M
      ∧ (∀ q ∈ [(⟨0, 0⟩ : Pt), ⟨2, 2⟩, ⟨1, 1⟩], ptLe m q = true ∧ ptLe q M = true)
      ∧ (∀ q ∈ [(⟨0, 0⟩ : Pt), ⟨2, 2⟩, ⟨1, 1⟩], ∃ t : ℚ, 0 ≤ t ∧ t ≤ 1
            ∧ q.x = m.x + t * (M.x - m.x) ∧ q.y = m.y + t * (M.y - m.y))
      ∧ calculate_area (convex_hull [⟨0, 0⟩, ⟨2, 2⟩, ⟨1, 1⟩]) = 0 :=
  c10_collinear_hull [⟨0, 0⟩, ⟨2, 2⟩, ⟨1, 1⟩] (by decide)
    ⟨1, -1, 0, Or.inl one_ne_zero, by intro q hq; fin_cases hq <;> norm_num⟩
    ⟨⟨0, 0⟩, by decide, ⟨2, 2⟩, by decide, by decide⟩

/-! ### Admission-queue lemmas (for C6) -/

/-- `executeClientCommand` (base effect) never touches the waiting
queue: queueing happens only in `handleClientCommand`, and draining in
`processWaitingCommands`. -/
theorem q6ExecBase_queue (s : Q6State) (sock : Int) (c : Cmd) :
    (q6ExecBase s sock c).1.waitingCommands = s.waitingCommands := by
  cases c with
  | newgraph n => cases n <;> simp [q6ExecBase] <;> split <;> simp
  | ch => simp [q6ExecBase]; split <;> simp
  | newpoint p => cases p <;> simp [q6ExecBase]
  | removepoint p => cases p <;> simp [q6ExecBase]
  | exitCmd => simp [q6ExecBase]
  | unknown => simp [q6ExecBase]

/-- Because `executeClientCommand` neither reads nor writes the waiting
queue, its effect commutes with replacing the queue. -/
theorem q6ExecBase_setQueue (s : Q6State) (sock : Int) (c : Cmd)
    (q : List (Int × Line)) :
    { (q6ExecBase s sock c).1 with waitingCommands := q }
      = (q6ExecBase { s with waitingCommands := q } sock c).1 := by
  cases c with
  | newgraph n => cases n <;> simp [q6ExecBase] <;> split <;> simp
  | ch => simp [q6ExecBase]; split <;> simp
  | newpoint p => cases p <;> simp [q6ExecBase]
  | removepoint p => cases p <;> simp [q6ExecBase]
  | exitCmd => simp [q6ExecBase]
  | unknown => simp [q6ExecBase]

/-- FIFO drain characterisation: `processWaitingCommands` executes some
prefix of the queue in arrival order (a left fold of the base command
effect), leaves exactly the corresponding suffix queued, and stops
before the end only when a drained command has re-taken the lock. -/
theorem q6Drain_fifo (s : Q6State) :
    ∃ k, (q6Drain s).1
        = List.foldl (fun st p => (q6ExecBase st p.1 p.2.cmd).1)
            { s with waitingCommands := s.waitingCommands.drop k }
            (s.waitingCommands.take k)
      ∧ (q6Drain s).1.waitingCommands = s.waitingCommands.drop k
      ∧ ((q6Drain s).1.waitingCommands ≠ [] → (q6Drain s).1.isGraphLocked = true) := by
  by_cases hlock : s.isGraphLocked
  · refine ⟨0, ?_, ?_, ?_⟩
    · rw [q6Drain, if_pos hlock]
      exact rfl
    · rw [q6Drain, if_pos hlock]
      exact rfl
    · intro _
      rw [q6Drain, if_pos hlock]
      exact hlock
  · cases hq : s.waitingCommands with
    | nil =>
      have hd : q6Drain s = (s, []) := by
        rw [q6Drain, if_neg hlock]
        split
        · rfl
        · rename_i a rest h
          rw [hq] at h
          simp at h
      refine ⟨0, ?_, ?_, ?_⟩
      · rw [hd]
        show s = { s with waitingCommands := [] }
        rw [← hq]
      · rw [hd]
        exact hq
      · intro hne
        rw [hd] at hne
        exact absurd hq hne
    | cons a rest =>
      have hd : q6Drain s
          = ((q6Drain (q6ExecBase { s with waitingCommands := rest } a.1 a.2.cmd).1).1,
             (q6ExecBase { s with waitingCommands := rest } a.1 a.2.cmd).2
               ++ (q6Drain (q6ExecBase { s with waitingCommands := rest } a.1 a.2.cmd).1).2) := by
        rw [q6Drain, if_neg hlock]
        split
        · rename_i h
          rw [hq] at h
          simp at h
        · rename_i a' rest' h
          rw [hq] at h
          injection h with h1 h2
          subst h1
          subst h2
          rfl
      obtain ⟨k, ih1, ih2, ih3⟩ :=
        q6Drain_fifo (q6ExecBase { s with waitingCommands := rest } a.1 a.2.cmd).1
      have hBq : (q6ExecBase { s with waitingCommands := rest } a.1 a.2.cmd).1.waitingCommands
          = rest := q6ExecBase_queue _ _ _
      rw [hBq] at ih1 ih2
      refine ⟨k + 1, ?_, ?_, ?_⟩
      · rw [hd]
        simp only [ih1, hq, List.take_succ_cons, List.drop_succ_cons, List.foldl_cons]
        rw [q6ExecBase_setQueue]
      · rw [hd]
        simp only [ih2, hq, List.drop_succ_cons]
      · rw [hd]
        exact ih3
termination_by s.waitingCommands.length
decreasing_by simp [q6ExecBase_queue, hq]

/-- `executeClientCommand` (with its trailing drains) only ever pops
the waiting queue: the resulting queue is a suffix of the old one. -/
theorem q6Exec_queue_suffix (s : Q6State) (sock : Int) (c : Cmd) :
    ((q6Exec s sock c).1.waitingCommands).IsSuffix s.waitingCommands := by
  have hbase : ∀ c', ((q6ExecBase s sock c').1.waitingCommands).IsSuffix s.waitingCommands := by
    intro c'
    rw [q6ExecBase_queue]
  have hdrain : ∀ c', ((q6Drain (q6ExecBase s sock c').1).1.waitingCommands).IsSuffix
      s.waitingCommands := by
    intro c'
    obtain ⟨k, _, h2, _⟩ := q6Drain_fifo (q6ExecBase s sock c').1
    rw [h2, q6ExecBase_queue]
    exact List.drop_suffix k _
  cases c with
  | newpoint p =>
    cases p with
    | none => exact hbase _
    | some q => exact hdrain _
  | removepoint p =>
    cases p with
    | none => exact hbase _
    | some q => exact hdrain _
  | newgraph n => exact hbase _
  | ch => exact hbase _
  | exitCmd => exact hbase _
  | unknown => exact hbase _

/-- C6: in the q6 single-threaded deployment, while session `S` holds
exclusive graph access: (1) a graph-touching command from an idle
session other than `S` is appended to the FIFO queue (reply
`Command queued`) instead of being executed, everything else unchanged;
(2) processing any line from `S` itself never grows the queue — the
resulting queue is a suffix of the old one; (3) the drain executes a
prefix of the queue in arrival order and keeps the remainder exactly
when a drained command re-acquired exclusive access; (4) when `S`
completes its point sequence the handler's resulting state is the drain
of the released (unlocked, back-to-Idle) state. -/
theorem c6_admission_queue :
    (∀ (s : Q6State) (sock : Int) (line : Line),
      s.isGraphLocked = true → s.lockingClientSocket ≠ sock →
      s.clientInputState sock ≠ 1 → q6NeedsLock line.cmd = true →
      q6Handle s sock line
        = ({ s with waitingCommands := s.waitingCommands ++ [(sock, line)] },
           [(sock, Reply.lit "Command queued")]))
    ∧ (∀ (s : Q6State) (sock : Int) (line : Line),
      s.isGraphLocked = true → s.lockingClientSocket = sock →
      ((q6Handle s sock line).1.waitingCommands).IsSuffix s.waitingCommands)
    ∧ (∀ s : Q6State, ∃ k,
        (q6Drain s).1
          = List.foldl (fun st p => (q6ExecBase st p.1 p.2.cmd).1)
              { s with waitingCommands := s.waitingCommands.drop k }
              (s.waitingCommands.take k)
        ∧ (q6Drain s).1.waitingCommands = s.waitingCommands.drop k
        ∧ ((q6Drain s).1.waitingCommands ≠ [] → (q6Drain s).1.isGraphLocked = true))
    ∧ (∀ (s : Q6State) (sock : Int) (line : Line) (p : Pt),
      s.clientInputState sock = 1 → line.asPoint = some p →
      s.pointsToRead sock ≤ s.pointsAlreadyRead sock + 1 →
      (q6Handle s sock line).1
        = (q6Drain { s with
            sharedGraphPoints := s.sharedGraphPoints ++ [p],
            pointsAlreadyRead := mapSet s.pointsAlreadyRead sock (s.pointsAlreadyRead sock + 1),
            clientInputState := mapSet s.clientInputState sock 0,
            isGraphLocked := false, lockingClientSocket := -1 }).1) := by
  refine ⟨?_, ?_, q6Drain_fifo, ?_⟩
  · intro s sock line hlock hother hstate hneed
    simp [q6Handle, hstate, hlock, hneed, hother]
  · intro s sock line _ hown
    by_cases hin : s.clientInputState sock = 1
    · cases hp : line.asPoint with
      | none =>
        simp only [q6Handle, hin, hp, if_true]
        exact List.suffix_refl _
      | some p =>
        by_cases hfull : s.pointsAlreadyRead sock + 1 ≥ s.pointsToRead sock
        · simp only [q6Handle, hin, hp, if_true, if_pos hfull]
          obtain ⟨k, _, h2, _⟩ := q6Drain_fifo
            { s with
              sharedGraphPoints := s.sharedGraphPoints ++ [p],
              pointsAlreadyRead := mapSet s.pointsAlreadyRead sock (s.pointsAlreadyRead sock + 1),
              clientInputState := mapSet s.clientInputState sock 0,
              isGraphLocked := false, lockingClientSocket := -1 }
          rw [h2]
          exact List.drop_suffix k _
        · simp only [q6Handle, hin, hp, if_true, if_neg hfull]
          exact List.suffix_refl _
    · have hguard : ¬ (s.isGraphLocked = true ∧ q6NeedsLock line.cmd = true
          ∧ s.lockingClientSocket ≠ sock) := by
        intro h
        exact h.2.2 hown
      simp only [q6Handle, if_neg hin, if_neg hguard]
      exact q6Exec_queue_suffix s sock line.cmd
  · intro s sock line p hin hp hfull
    simp only [q6Handle, hin, hp, if_true, if_pos hfull]

/-- Witness for C6: with the graph locked by socket 5, a `CH` from the
idle socket 7 is queued with the `Command queued` reply and nothing
else changes. -/
theorem c6_admission_queue_witness :
    q6Handle ⟨[], true, 5, fun _ => 0, fun _ => 0, fun _ => 0, []⟩ 7 ⟨none, Cmd.ch⟩
      = (⟨[], true, 5, fun _ => 0, fun _ => 0, fun _ => 0, [(7, ⟨none, Cmd.ch⟩)]⟩,
         [(7, Reply.lit "Command queued")]) :=
  c6_admission_queue.1 ⟨[], true, 5, fun _ => 0, fun _ => 0, fun _ => 0, []⟩ 7 ⟨none, Cmd.ch⟩
    rfl (by decide) (by decide) rfl
